import Mathlib

/-!
Verification of the IDFM analytics data-ops ingestion core: a shallow
embedding of the paginated Opendatasoft API client
(`ingestion/odsv2_client.py`), the extraction scripts
(`ingestion/extract_validations.py`, `ingestion/extract_ponctuality.py`)
and the BigQuery bulk loader (`ingestion/load_bigquery_raw.py`),
together with theorems settling the specification claims about them.

Machine strings are modelled as Lean `String`/`List Char`, JSON values as
an inductive `Json` type with integer numerics, Python dicts as ordered
association lists, and the HTTP server as an oracle from request
parameters to response pages.  Fallible Python code (attribute errors)
is embedded with `Except`; the unbounded `while True` pagination loop is
embedded with explicit fuel, returning `none` on fuel exhaustion.
-/

namespace IDFM

/-- JSON values as produced by the ODS API and consumed by the loader.
Numbers are modelled as integers. -/
inductive Json where
  | null : Json
  | bool : Bool → Json
  | num : Int → Json
  | str : String → Json
  | arr : List Json → Json
  | obj : List (String × Json) → Json
deriving Repr

/-! ## Pagination client: `odsv2_client.py` -/

/-- One parsed page of an ODS API response: the `results` array and the
reported `total_count`.  The record payload type is abstract because the
pagination loop never inspects individual records. -/
structure Page (α : Type) where
  results : List α
  total_count : Nat

/-- The query-parameter dict built by `ODSv2Client.get_records`
(lines 103-113 of `odsv2_client.py`). -/
structure GetParams where
  limit : Nat
  offset : Nat
  where_ : Option String
  select : Option String
  order_by : Option String
deriving Repr, DecidableEq

/-- `get_records` builds its params with `'limit': min(limit, 100)`:
the API maximum of 100 is enforced client-side. -/
def get_records_params (limit offset : Nat)
    (where_ select order_by : Option String) : GetParams :=
  { limit := min limit 100, offset := offset,
    where_ := where_, select := select, order_by := order_by }

/-- A server oracle: assigns one response page to every parameter set.
`get_records` itself just issues the request built by
`get_records_params` and returns the parsed body. -/
def get_records (server : GetParams → Page α) (limit offset : Nat)
    (where_ select order_by : Option String) : Page α :=
  server (get_records_params limit offset where_ select order_by)

/-- The fixed page size of `get_all_records` (`page_size = 100`). -/
def page_size : Nat := 100

/-- Python truthiness of `max_records and len(all_records) >= max_records`:
`None` and `0` are falsy, so the truncation branch runs only for a
nonzero cap that has been reached. -/
def truncCheck (max_records : Option Nat) (len : Nat) : Bool :=
  match max_records with
  | none => false
  | some n => decide (n ≠ 0) && decide (n ≤ len)

/-- The `while True` pagination loop of `get_all_records`
(lines 160-202 of `odsv2_client.py`), with explicit fuel.  The state is
`(offset, all_records, total_count)`; the result is the list of requests
issued together with `some` final record list, or `none` if fuel ran out
before the loop broke.  Each iteration: truncation check, fetch one page,
capture `total_count` from the first page, stop on an empty page, extend,
stop once the accumulated count reaches the captured total, else advance
the offset by the page size. -/
def get_all_records_loop (server : GetParams → Page α)
    (where_ select order_by : Option String) (max_records : Option Nat) :
    Nat → Nat → List α → Option Nat → List GetParams × Option (List α)
  | 0, _, _, _ => ([], none)
  | fuel + 1, offset, all_records, total_count =>
    if truncCheck max_records all_records.length then
      ([], some (all_records.take (max_records.getD 0)))
    else
      let req := get_records_params page_size offset where_ select order_by
      let response := get_records server page_size offset where_ select order_by
      let records := response.results
      let total := total_count.getD response.total_count
      if records.isEmpty then
        ([req], some all_records)
      else
        let all' := all_records ++ records
        if total ≤ all'.length then
          ([req], some all')
        else
          let next := get_all_records_loop server where_ select order_by
            max_records fuel (offset + page_size) all' (some total)
          (req :: next.1, next.2)

/-- `get_all_records`: run the pagination loop from offset 0 with no
records accumulated and no captured total. -/
def get_all_records (server : GetParams → Page α)
    (where_ select order_by : Option String) (max_records : Option Nat)
    (fuel : Nat) : List GetParams × Option (List α) :=
  get_all_records_loop server where_ select order_by max_records fuel 0 [] none

/-! ## Field extraction: `odsv2_client.extract_fields` and the root-level
normalization loop of the extraction scripts -/

/-- Python `d.get(key)` on a dict parsed from JSON: a missing key and an
explicit JSON `null` both come back as `None`, modelled as `Json.null`. -/
def dictGet (d : List (String × Json)) (key : String) : Json :=
  match d.lookup key with
  | some v => v
  | none => Json.null

/-- Python `x.get(key, default)` where `x` may be any JSON value: raises
`AttributeError` unless `x` is a dict. -/
def pyGetAttr (x : Json) (key : String) (default : Json) : Except String Json :=
  match x with
  | Json.obj kvs => Except.ok ((kvs.lookup key).getD default)
  | _ => Except.error "AttributeError"

/-- Python `s.split(sep)` for a one-character separator, accumulating
the current piece in reverse. -/
def pySplitAux (sep : Char) : List Char → List Char → List String
  | acc, [] => [⟨acc.reverse⟩]
  | acc, c :: rest =>
    if c = sep then ⟨acc.reverse⟩ :: pySplitAux sep [] rest
    else pySplitAux sep (c :: acc) rest

/-- Python `s.split(sep)` (single-character separator). -/
def pySplit (s : String) (sep : Char) : List String :=
  pySplitAux sep [] s.data

/-- The key walk of `ODSv2Client._get_nested_field`: follow each key in
turn, requiring a dict at every step; a missing key, a `null` value or a
non-dict intermediate yields `None`. -/
def get_nested_aux : Json → List String → Json
  | value, [] => value
  | value, key :: rest =>
    match value with
    | Json.obj kvs =>
      match (kvs.lookup key).getD Json.null with
      | Json.null => Json.null
      | v => get_nested_aux v rest
    | _ => Json.null

/-- `ODSv2Client._get_nested_field` (lines 240-258): dot-notation lookup,
walking the keys of `field_path.split('.')`. -/
def _get_nested_field (data : Json) (field_path : String) : Json :=
  get_nested_aux data (pySplit field_path '.')

/-- One record of `ODSv2Client.extract_fields` (lines 225-236):
`fields = record.get('record', \x7b\x7d).get('fields', \x7b\x7d)` followed by one
dot-notation lookup per `(target, source)` pair of the mapping.  The
second `.get` raises `AttributeError` when the `'record'` member is
present but not a dict. -/
def extract_fields_record (field_mapping : List (String × String)) (record : Json) :
    Except String (List (String × Json)) := do
  let r ← pyGetAttr record "record" (Json.obj [])
  let fields ← pyGetAttr r "fields" (Json.obj [])
  Except.ok (field_mapping.map fun p => (p.1, _get_nested_field fields p.2))

/-- `ODSv2Client.extract_fields` (lines 204-238) over a list of raw
records; an `AttributeError` on any record aborts the whole call. -/
def extract_fields (records : List Json) (field_mapping : List (String × String)) :
    Except String (List (List (String × Json))) :=
  records.mapM (extract_fields_record field_mapping)

/-- The `record['record']['fields']` sub-dict that `extract_fields`
reads on a record whose nesting is well-shaped (absent levels default to
the empty dict). -/
def record_fields (record : Json) : Json :=
  match record with
  | Json.obj kvs =>
    match kvs.lookup "record" with
    | some (Json.obj rkvs) => (rkvs.lookup "fields").getD (Json.obj [])
    | some _ => Json.null
    | none => Json.obj []
  | _ => Json.null

/-- A raw record on which `extract_fields` cannot raise: a dict whose
`'record'` member, when present, is itself a dict. -/
def WellShaped (record : Json) : Prop :=
  ∃ kvs, record = Json.obj kvs ∧
    ∀ v, kvs.lookup "record" = some v → ∃ rkvs, v = Json.obj rkvs

/-! ## Extraction scripts: `extract_validations.py`, `extract_ponctuality.py` -/

/-- The normalization step shared by both extraction scripts (lines
87-93 / 91-97): one output dict per raw record, holding every configured
target field (value looked up at the source name, `None` when absent)
followed by the injected `ingestion_ts` and `source` metadata keys. -/
def extract_record_root (fields : List (String × String))
    (ingestion_ts source : String) (record : List (String × Json)) :
    List (String × Json) :=
  (fields.map fun p => (p.1, dictGet record p.2))
    ++ [("ingestion_ts", Json.str ingestion_ts), ("source", Json.str source)]

/-- An extraction artifact: the output file name and the array of
normalized records written to it. -/
structure Artifact where
  filename : String
  records : List (List (String × Json))
deriving Repr

/-- `extract_validations` (lines 81-105) after the fetch: empty result
means return with no write; otherwise normalize every record and write
one artifact named `validations_<start>_<end>.json`. -/
def extract_validations (fields : List (String × String)) (ingestion_ts : String)
    (start_date end_date : String) (records : List (List (String × Json))) :
    Option Artifact :=
  if records.isEmpty then none
  else some
    { filename := "validations_" ++ start_date ++ "_" ++ end_date ++ ".json"
      records := records.map (extract_record_root fields ingestion_ts "idfm_validations_rail") }

/-- Python string slicing `s[:n]` (by characters). -/
def strTake (s : String) (n : Nat) : String := ⟨s.data.take n⟩

/-- The date filter built by `extract_punctuality` (lines 68-72): both
bounds are truncated to their 7-character `YYYY-MM` prefix before being
interpolated into the predicate. -/
def punctuality_where (date_field start_date end_date : String) : String :=
  date_field ++ " >= '" ++ strTake start_date 7 ++ "' AND "
    ++ date_field ++ " <= '" ++ strTake end_date 7 ++ "'"

/-- `extract_punctuality` (lines 86-109) after the fetch: same shape as
`extract_validations`, with month-truncated dates in the file name and
the `transilien_punctuality` provenance tag. -/
def extract_punctuality (fields : List (String × String)) (ingestion_ts : String)
    (start_date end_date : String) (records : List (List (String × Json))) :
    Option Artifact :=
  if records.isEmpty then none
  else some
    { filename := "punctuality_" ++ strTake start_date 7 ++ "_" ++ strTake end_date 7 ++ ".json"
      records := records.map (extract_record_root fields ingestion_ts "transilien_punctuality") }

/-! ## Bulk loader: `load_bigquery_raw.py` -/

/-- BigQuery write dispositions used by the loader. -/
inductive Disposition where
  | WRITE_TRUNCATE : Disposition
  | WRITE_APPEND : Disposition
deriving Repr, DecidableEq

/-- Observable load events: submission of a load job for one artifact
file into a table under a disposition, and completion of that job. -/
inductive LoadEvent where
  | submit : String → String → Disposition → LoadEvent
  | complete : String → LoadEvent
deriving Repr, DecidableEq

/-- `BigQueryLoader.load_json_to_table` (lines 76-116): submit one load
job, then block on `load_job.result()` until it completes. -/
def load_json_to_table (json_file table_name : String)
    (write_disposition : Disposition) : List LoadEvent :=
  [LoadEvent.submit json_file table_name write_disposition,
   LoadEvent.complete json_file]

/-- The `for i, json_file in enumerate(json_files)` loop of
`load_validations` (lines 146-154): `WRITE_TRUNCATE` exactly when the
truncate flag is set and `i == 0`, `WRITE_APPEND` otherwise. -/
def load_validations_go (truncate : Bool) : Nat → List String → List LoadEvent
  | _, [] => []
  | i, f :: fs =>
    load_json_to_table f "raw_validations"
        (if truncate ∧ i = 0 then Disposition.WRITE_TRUNCATE
         else Disposition.WRITE_APPEND)
      ++ load_validations_go truncate (i + 1) fs

/-- `BigQueryLoader.load_validations` over the sorted artifact list. -/
def load_validations (truncate : Bool) (json_files : List String) : List LoadEvent :=
  load_validations_go truncate 0 json_files

/-- One pattern iteration of `BigQueryLoader.load_referentials` (lines
207-222): sort the matching files, load only `json_files[-1]` — the
lexicographically greatest — always with `WRITE_TRUNCATE`; an empty
match list only logs a warning. -/
def load_referentials_pattern (files : List String) (table_name : String) :
    List LoadEvent :=
  let json_files := files.mergeSort (fun a b => decide (a ≤ b))
  match json_files.getLast? with
  | none => []
  | some latest => load_json_to_table latest table_name Disposition.WRITE_TRUNCATE

/-! ## JSON serialization: `_json_array_to_ndjson`

The encoder mirrors Python `json.dumps(record, ensure_ascii=False)` with
the default `', '` / `': '` separators: `'"'`-delimited strings with
backslash escapes for `"`， `\`, the five short control escapes and
`\u00XX` for remaining control characters; decimal integers; `[`…`]`
arrays and `\x7b`…`\x7d` objects.  The decoder is the specification's
"parse it back line by line" direction: a parser for the canonical
format the encoder emits. -/

/-- Decimal digit character (`'0'`-`'9'`). -/
def digitChar (n : Nat) : Char := Char.ofNat (48 + n)

/-- Lowercase hexadecimal digit character, as Python's `\u00xx` uses. -/
def hexDigit (n : Nat) : Char :=
  if n < 10 then Char.ofNat (48 + n) else Char.ofNat (87 + n)

/-- Decimal digits of a natural number, most significant first. -/
def natChars (n : Nat) : List Char :=
  if _h : n < 10 then [digitChar n]
  else natChars (n / 10) ++ [digitChar (n % 10)]
decreasing_by exact Nat.div_lt_self (by omega) (by omega)

/-- Python `repr` of an integer: optional minus sign, decimal digits. -/
def intChars (i : Int) : List Char :=
  if i < 0 then '-' :: natChars i.natAbs else natChars i.natAbs

/-- The escape sequence `json.dumps` (with `ensure_ascii=False`) emits
for one character: only `"`, `\` and control characters are escaped. -/
def escSeq (c : Char) : List Char :=
  if c = '"' then ['\\', '"']
  else if c = '\\' then ['\\', '\\']
  else if c = '\n' then ['\\', 'n']
  else if c = '\r' then ['\\', 'r']
  else if c = '\t' then ['\\', 't']
  else if c.toNat = 8 then ['\\', 'b']
  else if c.toNat = 12 then ['\\', 'f']
  else if c.toNat < 32 then
    ['\\', 'u', '0', '0', hexDigit (c.toNat / 16), hexDigit (c.toNat % 16)]
  else [c]

/-- A serialized JSON string: quote, escaped characters, quote. -/
def strChars (s : String) : List Char :=
  '"' :: s.data.flatMap escSeq ++ ['"']

mutual

/-- `json.dumps(v, ensure_ascii=False)` as a character list. -/
def dumps : Json → List Char
  | Json.null => ['n', 'u', 'l', 'l']
  | Json.bool true => ['t', 'r', 'u', 'e']
  | Json.bool false => ['f', 'a', 'l', 's', 'e']
  | Json.num i => intChars i
  | Json.str s => strChars s
  | Json.arr xs => '[' :: dumpsItems xs ++ [']']
  | Json.obj kvs => '\x7b' :: dumpsFields kvs ++ ['\x7d']

/-- `', '.join` of the serialized array items. -/
def dumpsItems : List Json → List Char
  | [] => []
  | x :: xs => dumps x ++ sepItems xs

/-- The `', item'` continuation of a serialized array. -/
def sepItems : List Json → List Char
  | [] => []
  | x :: xs => ',' :: ' ' :: (dumps x ++ sepItems xs)

/-- `', '.join` of the serialized `"key": value` members. -/
def dumpsFields : List (String × Json) → List Char
  | [] => []
  | (k, v) :: kvs => strChars k ++ ':' :: ' ' :: (dumps v ++ sepFields kvs)

/-- The `', "key": value'` continuation of a serialized object. -/
def sepFields : List (String × Json) → List Char
  | [] => []
  | (k, v) :: kvs =>
    ',' :: ' ' :: (strChars k ++ ':' :: ' ' :: (dumps v ++ sepFields kvs))

end

/-- Python `'\n'.join`: the pieces joined with single newlines between
consecutive pieces. -/
def joinNL : List (List Char) → List Char
  | [] => []
  | l :: ls => l ++ if ls.isEmpty then [] else '\n' :: joinNL ls

/-- `BigQueryLoader._json_array_to_ndjson` (lines 57-74): serialize each
record of the parsed JSON array and join the serializations with a
single newline — one self-contained record per line, built entirely in
memory. -/
def _json_array_to_ndjson (records : List Json) : List Char :=
  joinNL (records.map dumps)

/-! ### The decode direction: a parser for the canonical encoder output -/

/-- Value of one decimal digit character. -/
def charDigit (c : Char) : Nat := c.toNat - 48

/-- Numeric value of a decimal digit string, most significant first. -/
def digitsNat (ds : List Char) : Nat :=
  ds.foldl (fun a c => 10 * a + charDigit c) 0

/-- Value of one lowercase/uppercase hexadecimal digit character. -/
def hexVal (c : Char) : Nat :=
  if 97 ≤ c.toNat then c.toNat - 87
  else if 65 ≤ c.toNat then c.toNat - 55
  else c.toNat - 48

/-- Decoded character of a single-letter escape sequence: the five
C-style control escapes decode to their control character, and the three
self-representing escapes (quote, backslash, slash) decode to
themselves. -/
def unescChar (e : Char) : Option Char :=
  if e = 'n' then some '\n'
  else if e = 't' then some '\t'
  else if e = 'r' then some '\r'
  else if e = 'b' then some (Char.ofNat 8)
  else if e = 'f' then some (Char.ofNat 12)
  else if e = '"' ∨ e = '\\' ∨ e = '/' then some e
  else none

/-- Read a string body up to its closing quote, decoding escapes;
returns the decoded characters and the input after the quote. -/
def readStr : List Char → Option (List Char × List Char)
  | [] => none
  | c :: rest =>
    if c = '"' then some ([], rest)
    else if c = '\\' then
      match rest with
      | 'u' :: h1 :: h2 :: h3 :: h4 :: rest' =>
        (readStr rest').map fun r =>
          (Char.ofNat (((hexVal h1 * 16 + hexVal h2) * 16 + hexVal h3) * 16 + hexVal h4)
            :: r.1, r.2)
      | e :: rest' =>
        match unescChar e with
        | some d => (readStr rest').map fun r => (d :: r.1, r.2)
        | none => none
      | [] => none
    else (readStr rest).map fun r => (c :: r.1, r.2)

mutual

/-- Parse one JSON value in the encoder's canonical format; the fuel
decreases at every recursive call and bounds the nesting the parser can
traverse. -/
def parseVal : Nat → List Char → Option (Json × List Char)
  | 0, _ => none
  | _ + 1, [] => none
  | fuel + 1, c :: rest =>
    if c = 'n' then
      match rest with
      | 'u' :: 'l' :: 'l' :: r => some (Json.null, r)
      | _ => none
    else if c = 't' then
      match rest with
      | 'r' :: 'u' :: 'e' :: r => some (Json.bool true, r)
      | _ => none
    else if c = 'f' then
      match rest with
      | 'a' :: 'l' :: 's' :: 'e' :: r => some (Json.bool false, r)
      | _ => none
    else if c = '"' then
      match readStr rest with
      | some (cs, r) => some (Json.str ⟨cs⟩, r)
      | none => none
    else if c = '[' then
      if rest.head? = some ']' then some (Json.arr [], rest.tail)
      else do
        let (v, r1) ← parseVal fuel rest
        let (vs, r2) ← parseItems fuel r1
        some (Json.arr (v :: vs), r2)
    else if c = '\x7b' then
      if rest.head? = some '\x7d' then some (Json.obj [], rest.tail)
      else
        match rest with
        | '"' :: r => do
          let (k, r1) ← readStr r
          match r1 with
          | ':' :: ' ' :: r2 => do
            let (v, r3) ← parseVal fuel r2
            let (fs, r4) ← parseFields fuel r3
            some (Json.obj ((⟨k⟩, v) :: fs), r4)
          | _ => none
        | _ => none
    else if c = '-' then
      let ds := rest.takeWhile Char.isDigit
      if ds.isEmpty then none
      else some (Json.num (-(digitsNat ds : Int)), rest.dropWhile Char.isDigit)
    else if c.isDigit then
      some (Json.num (digitsNat ((c :: rest).takeWhile Char.isDigit) : Int),
        (c :: rest).dropWhile Char.isDigit)
    else none

/-- Parse the `', item'` continuations of an array up to `']'`. -/
def parseItems : Nat → List Char → Option (List Json × List Char)
  | 0, _ => none
  | fuel + 1, cs =>
    match cs with
    | ']' :: rest => some ([], rest)
    | ',' :: ' ' :: rest => do
      let (v, r1) ← parseVal fuel rest
      let (vs, r2) ← parseItems fuel r1
      some (v :: vs, r2)
    | _ => none

/-- Parse the `', "key": value'` continuations of an object up to `'\x7d'`. -/
def parseFields : Nat → List Char → Option (List (String × Json) × List Char)
  | 0, _ => none
  | fuel + 1, cs =>
    match cs with
    | '\x7d' :: rest => some ([], rest)
    | ',' :: ' ' :: '"' :: rest => do
      let (k, r1) ← readStr rest
      match r1 with
      | ':' :: ' ' :: r2 => do
        let (v, r3) ← parseVal fuel r2
        let (fs, r4) ← parseFields fuel r3
        some ((⟨k⟩, v) :: fs, r4)
      | _ => none
    | _ => none

end

/-- A remainder that cannot extend a serialized number: exhausted input
or a separator/closer character.  Every remainder the round-trip proof
feeds to the value parser has this shape. -/
def boundary : List Char → Bool
  | [] => true
  | c :: _ => decide (c = ',') || decide (c = ']') || decide (c = '\x7d')

/-- Split a character buffer at newlines. -/
def splitNL : List Char → List (List Char)
  | [] => [[]]
  | c :: rest =>
    if c = '\n' then [] :: splitNL rest
    else
      match splitNL rest with
      | [] => [[c]]
      | l :: ls => (c :: l) :: ls

/-- Parse one NDJSON line completely: the whole line must be consumed. -/
def parseLine (l : List Char) : Option Json :=
  match parseVal (l.length + 1) l with
  | some (v, []) => some v
  | _ => none

/-- Parse an NDJSON buffer line by line; the empty buffer has no lines. -/
def parseNDJSON (buf : List Char) : Option (List Json) :=
  if buf.isEmpty then some []
  else (splitNL buf).mapM parseLine

/-! ## Concrete servers used as failing inputs and witnesses -/

/-- A consistent 200-record source: pages of 100 records at offsets 0
and 100, empty afterwards, always reporting `total_count = 200`. -/
def server200 : GetParams → Page Nat := fun p =>
  if p.offset < 200 then { results := List.range' p.offset 100, total_count := 200 }
  else { results := [], total_count := 200 }

/-- A source that reports 10 records but serves 3 and then only empty
pages: the inconsistent-total scenario of the empty-page guard. -/
def serverShort : GetParams → Page Nat := fun p =>
  if p.offset = 0 then { results := [1, 2, 3], total_count := 10 }
  else { results := [], total_count := 10 }

/-- A source with no matching records: `total_count = 0`, empty pages. -/
def serverZero (α : Type) : GetParams → Page α := fun _ =>
  { results := [], total_count := 0 }

/-! # Theorems -/

/-! ## Pagination lemmas -/

/-- Every request the pagination loop issues uses the fixed page size. -/
theorem loop_requests_limit {α : Type} (server : GetParams → Page α)
    (w s o : Option String) (maxr : Option Nat) :
    ∀ (fuel offset : Nat) (acc : List α) (total : Option Nat) (req : GetParams),
      req ∈ (get_all_records_loop server w s o maxr fuel offset acc total).1 →
      req.limit = 100 := by
  intro fuel
  induction fuel with
  | zero =>
    intro offset acc total req h
    simp [get_all_records_loop] at h
  | succ n ih =>
    intro offset acc total req h
    rw [get_all_records_loop] at h
    split at h
    · simp at h
    · simp only [get_records] at h
      split at h
      · simp at h
        simp [h, get_records_params, page_size]
      · split at h
        · simp at h
          simp [h, get_records_params, page_size]
        · simp only [List.mem_cons] at h
          rcases h with h | h
          · simp [h, get_records_params, page_size]
          · exact ih _ _ _ req h

/-- An empty page stops the loop at once, returning the accumulator. -/
theorem loop_empty_page_stops {α : Type} (server : GetParams → Page α)
    (w s o : Option String) (maxr : Option Nat) (fuel offset : Nat)
    (acc : List α) (total : Option Nat)
    (ht : truncCheck maxr acc.length = false)
    (hr : (server (get_records_params page_size offset w s o)).results = []) :
    get_all_records_loop server w s o maxr (fuel + 1) offset acc total
      = ([get_records_params page_size offset w s o], some acc) := by
  rw [get_all_records_loop]
  simp [ht, get_records, hr]

/-- If some later page at the loop's own offset sequence is empty, the
loop resolves within that many iterations, whatever the reported totals,
cap and accumulator are. -/
theorem loop_terminates {α : Type} (server : GetParams → Page α)
    (w s o : Option String) (maxr : Option Nat) :
    ∀ (N offset : Nat) (acc : List α) (total : Option Nat),
      (server (get_records_params page_size (offset + page_size * N) w s o)).results = [] →
      ∀ fuel, N < fuel →
        ((get_all_records_loop server w s o maxr fuel offset acc total).2).isSome := by
  intro N
  induction N with
  | zero =>
    intro offset acc total hemp fuel hf
    match fuel, hf with
    | fuel + 1, _ =>
      rw [get_all_records_loop]
      split
      · simp
      · simp only [get_records]
        rw [show offset + page_size * 0 = offset from by omega] at hemp
        simp [hemp]
  | succ n ih =>
    intro offset acc total hemp fuel hf
    match fuel, hf with
    | fuel + 1, _ =>
      rw [get_all_records_loop]
      split
      · simp
      · simp only [get_records]
        split
        · simp
        · split
          · simp
          · refine ih (offset + page_size) _ _ ?_ fuel (by omega)
            rw [show offset + page_size * (n + 1)
                  = offset + page_size + page_size * n from by ring] at hemp
            exact hemp

/-! ## Claim C1 — `max_records` truncation -/

set_option maxRecDepth 8192

/-- C1: refuted on the code.  Against a perfectly consistent 200-record
source served in pages of 100, `get_all_records(max_records=110)`
returns all 200 fetched records: the `len(all_records) >= total_count`
break fires on the second page before the truncation check at the top of
the loop ever sees the excess, so the result exceeds the requested cap
instead of being truncated to 110. -/
theorem get_all_records_overshoots_max_records :
    ((get_all_records server200 none none none (some 110) 3).2.map List.length)
      = some 200 := by
  decide

/-! ## Claim C2 — defensive empty-page termination -/

/-- C2: whenever a fetched page returns zero records the pagination loop
stops immediately and returns the records accumulated so far — even when
the accumulated count is below the captured `total_count` — and
consequently the loop resolves (does not exhaust any sufficiently large
fuel) for every response sequence that eventually serves an empty page,
regardless of the reported totals. -/
theorem empty_page_stops_pagination :
    (∀ (α : Type) (server : GetParams → Page α) (w s o : Option String)
        (maxr : Option Nat) (fuel offset : Nat) (acc : List α) (total : Option Nat),
        truncCheck maxr acc.length = false →
        (server (get_records_params page_size offset w s o)).results = [] →
        get_all_records_loop server w s o maxr (fuel + 1) offset acc total
          = ([get_records_params page_size offset w s o], some acc)) ∧
    (∀ (α : Type) (server : GetParams → Page α) (w s o : Option String)
        (maxr : Option Nat) (N : Nat),
        (server (get_records_params page_size (page_size * N) w s o)).results = [] →
        ∀ fuel, N < fuel → ((get_all_records server w s o maxr fuel).2).isSome) := by
  constructor
  · intro α server w s o maxr fuel offset acc total ht hr
    exact loop_empty_page_stops server w s o maxr fuel offset acc total ht hr
  · intro α server w s o maxr N hemp fuel hf
    refine loop_terminates server w s o maxr N 0 [] none ?_ fuel hf
    rw [show 0 + page_size * N = page_size * N from by omega]
    exact hemp

/-- Witness for C2 at a concrete inconsistent source: `serverShort`
claims 10 records but serves 3 and then an empty page, and pagination
stops with the 3 accumulated records. -/
theorem empty_page_stops_pagination_witness :
    get_all_records_loop serverShort none none none none 1 100 [1, 2, 3] (some 10)
      = ([get_records_params page_size 100 none none none], some [1, 2, 3]) ∧
    ((get_all_records serverShort none none none none 2).2).isSome := by
  constructor
  · exact empty_page_stops_pagination.1 Nat serverShort none none none none 0 100
      [1, 2, 3] (some 10) (by decide) (by decide)
  · exact empty_page_stops_pagination.2 Nat serverShort none none none none 1
      (by decide) 2 (by decide)

/-! ## Claim C6 — the page limit never exceeds 100 -/

/-- C6: `get_records` clamps any caller-supplied limit to at most 100
(`min(limit, 100)`), any limit above 100 is clamped to exactly 100, and
every request issued by the pagination loop of `get_all_records` —
whatever the filter, selection, sort, cap and server — carries a limit
of at most 100. -/
theorem issued_limit_never_exceeds_100 :
    (∀ (limit offset : Nat) (w s o : Option String),
        (get_records_params limit offset w s o).limit ≤ 100) ∧
    (∀ (limit offset : Nat) (w s o : Option String), 100 < limit →
        (get_records_params limit offset w s o).limit = 100) ∧
    (∀ (α : Type) (server : GetParams → Page α) (w s o : Option String)
        (maxr : Option Nat) (fuel : Nat) (req : GetParams),
        req ∈ (get_all_records server w s o maxr fuel).1 → req.limit ≤ 100) := by
  refine ⟨?_, ?_, ?_⟩
  · intro limit offset w s o
    exact Nat.min_le_right limit 100
  · intro limit offset w s o h
    simpa [get_records_params] using Nat.min_eq_right (Nat.le_of_lt h)
  · intro α server w s o maxr fuel req h
    have := loop_requests_limit server w s o maxr fuel 0 [] none req h
    omega

/-- Witness for C6: a limit of 250 is clamped to 100, and the first
request of a concrete paginated run carries limit 100 ≤ 100. -/
theorem issued_limit_never_exceeds_100_witness :
    (get_records_params 250 0 none none none).limit = 100 ∧
    (get_records_params 100 0 none none none).limit ≤ 100 := by
  constructor
  · exact issued_limit_never_exceeds_100.2.1 250 0 none none none (by decide)
  · exact issued_limit_never_exceeds_100.2.2 Nat serverShort none none none none 2
      (get_records_params 100 0 none none none) (by decide)

/-! ## Claim C7 — zero matching records: empty batch, no artifact -/

/-- C7: when the source reports zero matching records (first page has
`total_count = 0` and no results), `get_all_records` returns the empty
list, and `extract_validations` returns normally without writing any
artifact for whatever record list the fetch produced. -/
theorem zero_total_empty_batch_no_artifact
    (server : GetParams → Page (List (String × Json))) (w s o : Option String)
    (fields : List (String × String)) (ts sd ed : String)
    (_h0 : (server (get_records_params page_size 0 w s o)).total_count = 0)
    (hr : (server (get_records_params page_size 0 w s o)).results = [])
    (fuel : Nat) (hf : 0 < fuel) :
    (get_all_records server w s o none fuel).2 = some [] ∧
    ∀ rs, (get_all_records server w s o none fuel).2 = some rs →
      extract_validations fields ts sd ed rs = none := by
  have key : (get_all_records server w s o none fuel).2 = some [] := by
    match fuel, hf with
    | fuel + 1, _ =>
      rw [get_all_records,
        loop_empty_page_stops server w s o none fuel 0 [] none (by decide) hr]
  refine ⟨key, ?_⟩
  intro rs hrs
  rw [key] at hrs
  cases hrs
  rfl

/-- Witness for C7 at the concrete zero-record source. -/
theorem zero_total_empty_batch_no_artifact_witness :
    (get_all_records (serverZero (List (String × Json))) none none none none 1).2
        = some [] ∧
    ∀ rs,
      (get_all_records (serverZero (List (String × Json))) none none none none 1).2
          = some rs →
      extract_validations [("date", "jour")] "t" "2024-01-01" "2024-01-02" rs = none :=
  zero_total_empty_batch_no_artifact (serverZero (List (String × Json))) none none none
    [("date", "jour")] "t" "2024-01-01" "2024-01-02" rfl rfl 1 (by decide)

/-! ## Claim C8 — field extraction totality -/

/-- C8: refuted on the code.  `extract_fields` is not total over raw
records: on a record whose `'record'` member is present but not a dict,
`record.get('record', \x7b\x7d).get('fields', \x7b\x7d)` raises
`AttributeError` instead of yielding null target values. -/
theorem extract_fields_raises_on_nondict_record :
    extract_fields [Json.obj [("record", Json.str "x")]] [("a", "b")]
      = Except.error "AttributeError" := rfl

/-- `extract_fields` on one record with well-shaped nesting: no error,
and every target field is the dot-notation lookup of its source path in
the record's `fields` sub-dict. -/
theorem extract_fields_record_wellshaped (m : List (String × String)) (r : Json)
    (h : WellShaped r) :
    extract_fields_record m r
      = Except.ok (m.map fun p => (p.1, _get_nested_field (record_fields r) p.2)) := by
  obtain ⟨kvs, rfl, hrec⟩ := h
  cases hl : kvs.lookup "record" with
  | none =>
    simp only [extract_fields_record, pyGetAttr, hl, record_fields]
    rfl
  | some v =>
    obtain ⟨rkvs, rfl⟩ := hrec v hl
    simp only [extract_fields_record, pyGetAttr, hl, record_fields]
    rfl

/-- C8 amended: on records whose `'record'` member, when present, is a
dict — in particular on every record in the nested ODS shape —
`extract_fields` is total: it returns one output record per input, each
target field holding the source path's value (`null` when absent, as the
single-key lookup equation of the third conjunct shows), and the output
keys are exactly the mapping's target names, so unmapped source fields
never appear. -/
theorem extract_fields_total_on_wellshaped (records : List Json)
    (m : List (String × String)) (h : ∀ r ∈ records, WellShaped r) :
    extract_fields records m
      = Except.ok (records.map fun r =>
          m.map fun p => (p.1, _get_nested_field (record_fields r) p.2)) ∧
    (∀ out ∈ records.map fun r =>
        m.map fun p => (p.1, _get_nested_field (record_fields r) p.2),
      out.map Prod.fst = m.map Prod.fst) ∧
    (∀ (kvs : List (String × Json)) (key : String),
      get_nested_aux (Json.obj kvs) [key] = (kvs.lookup key).getD Json.null) := by
  refine ⟨?_, ?_, ?_⟩
  · induction records with
    | nil => rfl
    | cons r rs ih =>
      have hr := extract_fields_record_wellshaped m r (h r (by simp))
      have hrs := ih fun x hx => h x (by simp [hx])
      rw [extract_fields] at hrs ⊢
      rw [List.mapM_cons, hr, hrs]
      rfl
  · intro out hout
    obtain ⟨r, _, rfl⟩ := List.mem_map.mp hout
    rw [List.map_map]
    rfl
  · intro kvs key
    cases hv : (kvs.lookup key).getD Json.null <;>
      simp [get_nested_aux, hv]

/-- Witness for C8's amended theorem at the nested-shape record of the
unit tests: one present field, one missing field. -/
theorem extract_fields_total_on_wellshaped_witness :
    extract_fields
        [Json.obj [("record", Json.obj [("fields",
          Json.obj [("source_id", Json.str "123"), ("extra", Json.str "ig")])])]]
        [("id", "source_id"), ("missing", "nope")]
      = Except.ok [[("id", Json.str "123"), ("missing", Json.null)]] := by
  have key := extract_fields_total_on_wellshaped
    [Json.obj [("record", Json.obj [("fields",
      Json.obj [("source_id", Json.str "123"), ("extra", Json.str "ig")])])]]
    [("id", "source_id"), ("missing", "nope")]
    (by
      intro r hr
      simp only [List.mem_singleton] at hr
      subst hr
      refine ⟨_, rfl, ?_⟩
      intro v hv
      simp at hv
      exact ⟨_, hv.symm⟩)
  exact key.1.trans (by rfl)

/-! ## Claim C9 — month-prefix date filter -/

/-- C9: the punctuality filter predicate depends only on the 7-character
`YYYY-MM` prefixes of the two date bounds — any two calls whose bounds
agree on those prefixes produce the identical predicate, so no day
component ever reaches it — and the `2024-01-15`..`2024-03-20` scenario
produces exactly the predicate over `2024-01` and `2024-03`. -/
theorem punctuality_filter_month_prefix_only :
    (∀ df s1 e1 s2 e2 : String,
      strTake s1 7 = strTake s2 7 → strTake e1 7 = strTake e2 7 →
      punctuality_where df s1 e1 = punctuality_where df s2 e2) ∧
    punctuality_where "date" "2024-01-15" "2024-03-20"
      = "date >= '2024-01' AND date <= '2024-03'" := by
  constructor
  · intro df s1 e1 s2 e2 h1 h2
    unfold punctuality_where
    rw [h1, h2]
  · decide

/-- Witness for C9: two calls differing only in day components build the
same predicate. -/
theorem punctuality_filter_month_prefix_only_witness :
    punctuality_where "date" "2024-01-15" "2024-03-20"
      = punctuality_where "date" "2024-01-01" "2024-03-31" :=
  punctuality_filter_month_prefix_only.1 "date" "2024-01-15" "2024-03-20"
    "2024-01-01" "2024-03-31" (by decide) (by decide)

/-! ## Claim C10 — normalization shape invariants -/

/-- C10: the normalization loop of the extraction scripts produces
exactly one output record per raw record, positionally (hence in input
order), and every output record's key list is exactly the configured
target names followed by `ingestion_ts` and `source`, whatever fields
each individual raw record happens to contain. -/
theorem normalization_preserves_shape (fields : List (String × String))
    (ts src : String) (records : List (List (String × Json)))
    (_hne : records ≠ []) (_hnd : (fields.map Prod.fst).Nodup)
    (_hits : "ingestion_ts" ∉ fields.map Prod.fst)
    (_hsrc : "source" ∉ fields.map Prod.fst) :
    (records.map (extract_record_root fields ts src)).length = records.length ∧
    (∀ i : Nat,
      (records.map (extract_record_root fields ts src))[i]?
        = (records[i]?).map (extract_record_root fields ts src)) ∧
    (∀ out ∈ records.map (extract_record_root fields ts src),
      out.map Prod.fst = fields.map Prod.fst ++ ["ingestion_ts", "source"]) := by
  refine ⟨List.length_map records _, ?_, ?_⟩
  · intro i
    simp [List.getElem?_map]
  · intro out hout
    obtain ⟨r, _, rfl⟩ := List.mem_map.mp hout
    rw [extract_record_root, List.map_append, List.map_map]
    rfl

/-- Witness for C10 at a two-record batch with one partially-missing
field. -/
theorem normalization_preserves_shape_witness :
    ([[("jour", Json.str "2024-01-01")], []].map
        (extract_record_root [("date", "jour")] "T" "S")).length
      = [[("jour", Json.str "2024-01-01")], ([] : List (String × Json))].length ∧
    (∀ i : Nat,
      ([[("jour", Json.str "2024-01-01")], []].map
          (extract_record_root [("date", "jour")] "T" "S"))[i]?
        = ([[("jour", Json.str "2024-01-01")], ([] : List (String × Json))][i]?).map
            (extract_record_root [("date", "jour")] "T" "S")) ∧
    (∀ out ∈ [[("jour", Json.str "2024-01-01")], []].map
        (extract_record_root [("date", "jour")] "T" "S"),
      out.map Prod.fst = ["date", "ingestion_ts", "source"]) :=
  normalization_preserves_shape [("date", "jour")] "T" "S"
    [[("jour", Json.str "2024-01-01")], []]
    (by simp) (by decide) (by decide) (by decide)

/-! ## Claim C3 — incremental load disposition sequence -/

/-- The enumerate loop from index 1 on: every remaining artifact is
appended, submit before complete, in list order. -/
theorem load_validations_go_tail (truncate : Bool) :
    ∀ (fs : List String) (i : Nat), i ≠ 0 →
      load_validations_go truncate i fs
        = fs.flatMap fun g =>
            [LoadEvent.submit g "raw_validations" Disposition.WRITE_APPEND,
             LoadEvent.complete g] := by
  intro fs
  induction fs with
  | nil => intro i _; rfl
  | cons f fs ih =>
    intro i hi
    rw [load_validations_go, List.flatMap_cons, ih (i + 1) (by omega)]
    simp [load_json_to_table, hi]

/-- C3: loading artifacts `f :: fs` submits `f` first — `WRITE_TRUNCATE`
exactly when the truncate flag is set, `WRITE_APPEND` otherwise — waits
for its completion, then submits every artifact of `fs` in order, always
with `WRITE_APPEND`, each completing before the next submission; an
empty list issues no jobs. -/
theorem load_validations_replace_then_append :
    (∀ (truncate : Bool) (f : String) (fs : List String),
      load_validations truncate (f :: fs)
        = LoadEvent.submit f "raw_validations"
            (if truncate then Disposition.WRITE_TRUNCATE else Disposition.WRITE_APPEND)
          :: LoadEvent.complete f
          :: (fs.flatMap fun g =>
                [LoadEvent.submit g "raw_validations" Disposition.WRITE_APPEND,
                 LoadEvent.complete g])) ∧
    (∀ truncate : Bool, load_validations truncate [] = []) := by
  constructor
  · intro truncate f fs
    rw [load_validations, load_validations_go,
      load_validations_go_tail truncate fs 1 (by omega)]
    cases truncate <;> simp [load_json_to_table]
  · intro truncate
    rfl

/-! ## Claim C4 — referential snapshots: latest only, always truncate -/

/-- In a `≤`-sorted list the last element bounds every member. -/
theorem sorted_le_getLast? :
    ∀ {l : List String}, l.Pairwise (fun a b : String => a ≤ b) →
      ∀ latest, l.getLast? = some latest → ∀ a ∈ l, a ≤ latest := by
  intro l
  induction l with
  | nil =>
    intro _ latest h
    simp at h
  | cons x t ih =>
    intro hp latest hl a ha
    cases t with
    | nil =>
      simp at hl ha
      simp [ha, hl]
    | cons y u =>
      rw [List.getLast?_cons_cons] at hl
      rcases List.mem_cons.mp ha with rfl | ha'
      · exact (List.pairwise_cons.mp hp).1 latest (List.mem_of_getLast?_eq_some hl)
      · exact ih (List.pairwise_cons.mp hp).2 latest hl a ha'

/-- C4: loading a referential pattern with at least one matching
snapshot submits exactly one job — for the lexicographically greatest
filename, always with `WRITE_TRUNCATE` — waits for it, and loads no
other file. -/
theorem load_referentials_only_latest_truncate (files : List String)
    (table : String) (hne : files ≠ []) :
    ∃ latest,
      load_referentials_pattern files table
        = [LoadEvent.submit latest table Disposition.WRITE_TRUNCATE,
           LoadEvent.complete latest] ∧
      latest ∈ files ∧ ∀ f ∈ files, f ≤ latest := by
  have hperm := List.mergeSort_perm files (fun a b : String => decide (a ≤ b))
  have hsne : files.mergeSort (fun a b : String => decide (a ≤ b)) ≠ [] := by
    intro h
    rw [h] at hperm
    exact hne hperm.symm.eq_nil
  have hlast : (files.mergeSort (fun a b : String => decide (a ≤ b))).getLast? ≠ none := by
    simpa [List.getLast?_eq_none_iff] using hsne
  obtain ⟨latest, hl⟩ := Option.ne_none_iff_exists'.mp hlast
  refine ⟨latest, ?_, ?_, ?_⟩
  · rw [load_referentials_pattern]
    simp only [hl]
    rfl
  · exact List.mem_mergeSort.mp (List.mem_of_getLast?_eq_some hl)
  · intro f hf
    have hp0 : (files.mergeSort (fun a b : String => decide (a ≤ b))).Pairwise
        (fun a b : String => decide (a ≤ b) = true) :=
      List.sorted_mergeSort
        (by
          intro a b c h1 h2
          simp only [decide_eq_true_eq] at h1 h2 ⊢
          exact le_trans h1 h2)
        (by
          intro a b
          simpa [Bool.or_eq_true, decide_eq_true_eq] using le_total a b)
        files
    have hp : (files.mergeSort (fun a b : String => decide (a ≤ b))).Pairwise
        (fun a b : String => a ≤ b) := by
      refine hp0.imp ?_
      intro a b hab
      simpa using hab
    exact sorted_le_getLast? hp latest hl f (List.mem_mergeSort.mpr hf)

/-- Witness for C4 at the spec's scenario: snapshots dated `20260225`
and `20260226`. -/
theorem load_referentials_only_latest_truncate_witness :
    ∃ latest,
      load_referentials_pattern
          ["ref_stops_20260226.json", "ref_stops_20260225.json"] "raw_ref_stops"
        = [LoadEvent.submit latest "raw_ref_stops" Disposition.WRITE_TRUNCATE,
           LoadEvent.complete latest] ∧
      latest ∈ ["ref_stops_20260226.json", "ref_stops_20260225.json"] ∧
      ∀ f ∈ ["ref_stops_20260226.json", "ref_stops_20260225.json"], f ≤ latest :=
  load_referentials_only_latest_truncate
    ["ref_stops_20260226.json", "ref_stops_20260225.json"] "raw_ref_stops" (by decide)

/-! ## Claim C5 — NDJSON conversion round-trip

Auxiliary lemmas for digits, scanning, escapes, the serialized shape,
and then the mutual round-trip of the value parser against the encoder. -/

theorem digitChar_isDigit (d : Nat) (h : d < 10) : (digitChar d).isDigit = true := by
  interval_cases d <;> decide

theorem charDigit_digitChar (d : Nat) (h : d < 10) : charDigit (digitChar d) = d := by
  interval_cases d <;> decide

theorem hexVal_hexDigit (d : Nat) (h : d < 16) : hexVal (hexDigit d) = d := by
  interval_cases d <;> decide

theorem natChars_digits (n : Nat) : ∀ c ∈ natChars n, c.isDigit = true := by
  induction n using Nat.strong_induction_on with
  | _ n ih =>
    unfold natChars
    split
    · intro c hc
      simp only [List.mem_singleton] at hc
      subst hc
      exact digitChar_isDigit n (by omega)
    · intro c hc
      rw [List.mem_append] at hc
      rcases hc with hc | hc
      · exact ih (n / 10) (Nat.div_lt_self (by omega) (by omega)) c hc
      · simp only [List.mem_singleton] at hc
        subst hc
        exact digitChar_isDigit _ (Nat.mod_lt _ (by omega))

theorem natChars_cons (n : Nat) :
    ∃ c t, natChars n = c :: t ∧ c.isDigit = true := by
  induction n using Nat.strong_induction_on with
  | _ n ih =>
    unfold natChars
    split
    · exact ⟨digitChar n, [], rfl, digitChar_isDigit n (by omega)⟩
    · obtain ⟨c, t, hct, hc⟩ := ih (n / 10) (Nat.div_lt_self (by omega) (by omega))
      exact ⟨c, t ++ [digitChar (n % 10)], by rw [hct]; rfl, hc⟩

theorem natChars_ne_nil (n : Nat) : natChars n ≠ [] := by
  obtain ⟨c, t, hct, _⟩ := natChars_cons n
  simp [hct]

theorem digitsNat_append (ds : List Char) (c : Char) :
    digitsNat (ds ++ [c]) = 10 * digitsNat ds + charDigit c := by
  simp [digitsNat, List.foldl_append]

theorem digitsNat_natChars (n : Nat) : digitsNat (natChars n) = n := by
  induction n using Nat.strong_induction_on with
  | _ n ih =>
    unfold natChars
    split
    · simp [digitsNat, charDigit_digitChar n (by omega)]
    · rw [digitsNat_append, ih (n / 10) (Nat.div_lt_self (by omega) (by omega)),
        charDigit_digitChar (n % 10) (Nat.mod_lt _ (by omega))]
      omega

theorem takeWhile_append_all {p : Char → Bool} :
    ∀ (l rest : List Char), (∀ c ∈ l, p c = true) →
      (∀ c, rest.head? = some c → p c = false) →
      (l ++ rest).takeWhile p = l ∧ (l ++ rest).dropWhile p = rest := by
  intro l
  induction l with
  | nil =>
    intro rest _ hr
    cases rest with
    | nil => exact ⟨rfl, rfl⟩
    | cons c t =>
      have hc := hr c rfl
      constructor
      · simp [List.takeWhile_cons, hc]
      · simp [List.dropWhile_cons, hc]
  | cons x l ih =>
    intro rest hl hr
    have hx : p x = true := hl x (by simp)
    obtain ⟨h1, h2⟩ := ih rest (fun c hc => hl c (by simp [hc])) hr
    constructor
    · simp [List.takeWhile_cons, hx, h1]
    · simp [List.dropWhile_cons, hx, h2]

theorem boundary_not_digit {rest : List Char} (hb : boundary rest = true) :
    ∀ c, rest.head? = some c → c.isDigit = false := by
  intro c hc
  cases rest with
  | nil => simp at hc
  | cons x t =>
    simp only [List.head?_cons, Option.some.injEq] at hc
    subst hc
    simp only [boundary, Bool.or_eq_true, decide_eq_true_eq] at hb
    rcases hb with (h | h) | h <;> (subst h; decide)

theorem string_mk_data (s : String) : String.mk s.data = s := rfl

/-- Reading back an escaped string body recovers the original
characters and leaves the input after the closing quote. -/
theorem readStr_flatMap : ∀ (l rest : List Char),
    readStr (l.flatMap escSeq ++ '"' :: rest) = some (l, rest) := by
  intro l
  induction l with
  | nil =>
    intro rest
    rw [readStr.eq_def]
    simp
  | cons c l ih =>
    intro rest
    rw [List.flatMap_cons, List.append_assoc]
    by_cases h1 : c = '"'
    · subst h1
      rw [show escSeq '"' = ['\\', '"'] from by decide]
      rw [List.cons_append, List.cons_append, List.nil_append, readStr.eq_def]
      simp [unescChar, ih]
    · by_cases h2 : c = '\\'
      · subst h2
        rw [show escSeq '\\' = ['\\', '\\'] from by decide]
        rw [List.cons_append, List.cons_append, List.nil_append, readStr.eq_def]
        simp [unescChar, ih]
      · by_cases h3 : c = '\n'
        · subst h3
          rw [show escSeq '\n' = ['\\', 'n'] from by decide]
          rw [List.cons_append, List.cons_append, List.nil_append, readStr.eq_def]
          simp [unescChar, ih]
        · by_cases h4 : c = '\r'
          · subst h4
            rw [show escSeq '\r' = ['\\', 'r'] from by decide]
            rw [List.cons_append, List.cons_append, List.nil_append, readStr.eq_def]
            simp [unescChar, ih]
          · by_cases h5 : c = '\t'
            · subst h5
              rw [show escSeq '\t' = ['\\', 't'] from by decide]
              rw [List.cons_append, List.cons_append, List.nil_append, readStr.eq_def]
              simp [unescChar, ih]
            · by_cases h6 : c.toNat = 8
              · rw [show escSeq c = ['\\', 'b'] from by
                  simp [escSeq, h1, h2, h3, h4, h5, h6]]
                rw [List.cons_append, List.cons_append, List.nil_append, readStr.eq_def]
                have hc : Char.ofNat 8 = c := by rw [← h6, Char.ofNat_toNat]
                simp [unescChar, ih]
                exact hc
              · by_cases h7 : c.toNat = 12
                · rw [show escSeq c = ['\\', 'f'] from by
                    simp [escSeq, h1, h2, h3, h4, h5, h6, h7]]
                  rw [List.cons_append, List.cons_append, List.nil_append, readStr.eq_def]
                  have hc : Char.ofNat 12 = c := by rw [← h7, Char.ofNat_toNat]
                  simp [unescChar, ih]
                  exact hc
                · by_cases h8 : c.toNat < 32
                  · rw [show escSeq c
                        = ['\\', 'u', '0', '0', hexDigit (c.toNat / 16),
                           hexDigit (c.toNat % 16)] from by
                      simp [escSeq, h1, h2, h3, h4, h5, h6, h7, h8]]
                    simp only [List.cons_append, List.nil_append]
                    rw [readStr.eq_def]
                    have e0 : hexVal '0' = 0 := by decide
                    have e1 : hexVal (hexDigit (c.toNat / 16)) = c.toNat / 16 :=
                      hexVal_hexDigit _ (by omega)
                    have e2 : hexVal (hexDigit (c.toNat % 16)) = c.toNat % 16 :=
                      hexVal_hexDigit _ (by omega)
                    simp [ih, e0, e1, e2]
                    rw [show c.toNat / 16 * 16 + c.toNat % 16 = c.toNat from by omega,
                      Char.ofNat_toNat]
                  · rw [show escSeq c = [c] from by
                      simp [escSeq, h1, h2, h3, h4, h5, h6, h7, h8]]
                    rw [List.cons_append, List.nil_append, readStr.eq_def]
                    simp [h1, h2, ih]

/-- A decimal digit differs from every structural character the value
parser dispatches on. -/
theorem digit_ne (c : Char) (h : c.isDigit = true) :
    ∀ d ∈ ['n', 't', 'f', '"', '[', '\x7b', '-', ']', '\x7d', '\n'], c ≠ d := by
  intro d hd he
  rw [he] at h
  fin_cases hd <;> exact absurd h (by decide)

/-- Every serialized value starts with a character other than `']'`. -/
theorem dumps_head : ∀ v : Json, ∃ c t, dumps v = c :: t ∧ c ≠ ']' := by
  intro v
  cases v with
  | null => exact ⟨'n', _, rfl, by decide⟩
  | bool b =>
    cases b with
    | false => exact ⟨'f', _, rfl, by decide⟩
    | true => exact ⟨'t', _, rfl, by decide⟩
  | num i =>
    by_cases hi : i < 0
    · exact ⟨'-', natChars i.natAbs, by simp [dumps, intChars, hi], by decide⟩
    · obtain ⟨c, t, hct, hc⟩ := natChars_cons i.natAbs
      exact ⟨c, t, by simp [dumps, intChars, hi, hct], digit_ne c hc ']' (by simp)⟩
  | str s => exact ⟨'"', _, rfl, by decide⟩
  | arr xs => exact ⟨'[', _, rfl, by decide⟩
  | obj kvs => exact ⟨'\x7b', _, rfl, by decide⟩

theorem hexDigit_ne_nl (d : Nat) (h : d < 16) : hexDigit d ≠ '\n' := by
  interval_cases d <;> decide

theorem escSeq_no_nl (c : Char) : '\n' ∉ escSeq c := by
  unfold escSeq
  split_ifs with h1 h2 h3 h4 h5 h6 h7 h8
  · intro h; simp at h
  · intro h; simp at h
  · intro h; simp at h
  · intro h; simp at h
  · intro h; simp at h
  · intro h; simp at h
  · intro h; simp at h
  · intro h
    simp only [List.mem_cons, List.not_mem_nil, or_false] at h
    rcases h with h | h | h | h | h | h
    · exact absurd h (by decide)
    · exact absurd h (by decide)
    · exact absurd h (by decide)
    · exact absurd h (by decide)
    · exact hexDigit_ne_nl _ (by omega) h.symm
    · exact hexDigit_ne_nl _ (by omega) h.symm
  · intro h
    simp only [List.mem_singleton] at h
    exact h3 h.symm

theorem strChars_no_nl (s : String) : '\n' ∉ strChars s := by
  intro h
  rw [strChars] at h
  rcases List.mem_cons.mp h with h | h
  · exact absurd h (by decide)
  · rcases List.mem_append.mp h with h | h
    · obtain ⟨c, _, hc⟩ := List.mem_flatMap.mp h
      exact escSeq_no_nl c hc
    · exact absurd (List.mem_singleton.mp h) (by decide)

theorem natChars_no_nl (n : Nat) : '\n' ∉ natChars n := by
  intro h
  have := natChars_digits n _ h
  exact digit_ne _ this '\n' (by simp) rfl

theorem intChars_no_nl (i : Int) : '\n' ∉ intChars i := by
  intro h
  unfold intChars at h
  split at h
  · rcases List.mem_cons.mp h with h | h
    · exact absurd h (by decide)
    · exact natChars_no_nl _ h
  · exact natChars_no_nl _ h

theorem isDigit_cases (c : Char) (h : c.isDigit = true) :
    c = '0' ∨ c = '1' ∨ c = '2' ∨ c = '3' ∨ c = '4' ∨ c = '5' ∨ c = '6' ∨ c = '7'
      ∨ c = '8' ∨ c = '9' := by
  have hb : 48 ≤ c.toNat ∧ c.toNat ≤ 57 := by
    simp only [Char.isDigit, Bool.and_eq_true, decide_eq_true_eq] at h
    exact ⟨h.1, h.2⟩
  have h10 : c.toNat = 48 ∨ c.toNat = 49 ∨ c.toNat = 50 ∨ c.toNat = 51 ∨ c.toNat = 52
      ∨ c.toNat = 53 ∨ c.toNat = 54 ∨ c.toNat = 55 ∨ c.toNat = 56 ∨ c.toNat = 57 := by
    omega
  have key : ∀ n : Nat, c.toNat = n → c = Char.ofNat n := by
    intro n hn
    rw [← hn, Char.ofNat_toNat]
  rcases h10 with h | h | h | h | h | h | h | h | h | h <;> rw [key _ h] <;> simp

/-! ### One-step unfoldings of the canonical-format parser (definitional) -/

theorem parseVal_null_start (fuel : Nat) (rest : List Char) :
    parseVal (fuel + 1) ('n' :: 'u' :: 'l' :: 'l' :: rest) = some (Json.null, rest) := rfl

theorem parseVal_true_start (fuel : Nat) (rest : List Char) :
    parseVal (fuel + 1) ('t' :: 'r' :: 'u' :: 'e' :: rest)
      = some (Json.bool true, rest) := rfl

theorem parseVal_false_start (fuel : Nat) (rest : List Char) :
    parseVal (fuel + 1) ('f' :: 'a' :: 'l' :: 's' :: 'e' :: rest)
      = some (Json.bool false, rest) := rfl

theorem parseVal_quote_start (fuel : Nat) (r : List Char) :
    parseVal (fuel + 1) ('"' :: r)
      = (match readStr r with
         | some (cs, rr) => some (Json.str ⟨cs⟩, rr)
         | none => none) := rfl

theorem parseVal_lbracket_start (fuel : Nat) (r : List Char) :
    parseVal (fuel + 1) ('[' :: r)
      = (if r.head? = some ']' then some (Json.arr [], r.tail)
         else do
           let (v, r1) ← parseVal fuel r
           let (vs, r2) ← parseItems fuel r1
           some (Json.arr (v :: vs), r2)) := rfl

theorem parseVal_lbrace_start (fuel : Nat) (r : List Char) :
    parseVal (fuel + 1) ('\x7b' :: r)
      = (if r.head? = some '\x7d' then some (Json.obj [], r.tail)
         else
           match r with
           | '"' :: rr => do
             let (k, r1) ← readStr rr
             match r1 with
             | ':' :: ' ' :: r2 => do
               let (v, r3) ← parseVal fuel r2
               let (fs, r4) ← parseFields fuel r3
               some (Json.obj ((⟨k⟩, v) :: fs), r4)
             | _ => none
           | _ => none) := rfl

theorem parseVal_minus_start (fuel : Nat) (t : List Char) :
    parseVal (fuel + 1) ('-' :: t)
      = (if (t.takeWhile Char.isDigit).isEmpty then none
         else some (Json.num (-(digitsNat (t.takeWhile Char.isDigit) : Int)),
           t.dropWhile Char.isDigit)) := rfl

theorem parseVal_digit_start (fuel : Nat) (c : Char) (t : List Char)
    (hc : c.isDigit = true) :
    parseVal (fuel + 1) (c :: t)
      = some (Json.num (digitsNat ((c :: t).takeWhile Char.isDigit) : Int),
          (c :: t).dropWhile Char.isDigit) := by
  rcases isDigit_cases c hc with h | h | h | h | h | h | h | h | h | h <;> subst h <;> rfl

theorem parseItems_rbracket (fuel : Nat) (rest : List Char) :
    parseItems (fuel + 1) (']' :: rest) = some ([], rest) := rfl

theorem parseItems_comma (fuel : Nat) (rest : List Char) :
    parseItems (fuel + 1) (',' :: ' ' :: rest)
      = (do
          let (v, r1) ← parseVal fuel rest
          let (vs, r2) ← parseItems fuel r1
          some (v :: vs, r2)) := rfl

theorem parseFields_rbrace (fuel : Nat) (rest : List Char) :
    parseFields (fuel + 1) ('\x7d' :: rest) = some ([], rest) := rfl

theorem parseFields_comma (fuel : Nat) (rest : List Char) :
    parseFields (fuel + 1) (',' :: ' ' :: '"' :: rest)
      = (do
          let (k, r1) ← readStr rest
          match r1 with
          | ':' :: ' ' :: r2 => do
            let (v, r3) ← parseVal fuel r2
            let (fs, r4) ← parseFields fuel r3
            some ((⟨k⟩, v) :: fs, r4)
          | _ => none) := rfl

/-! ### Number round-trip -/

theorem parseVal_natChars (fuel n : Nat) (rest : List Char)
    (hb : boundary rest = true) :
    parseVal (fuel + 1) (natChars n ++ rest) = some (Json.num (n : Int), rest) := by
  obtain ⟨c, t, hct, hc⟩ := natChars_cons n
  obtain ⟨htake, hdrop⟩ :=
    takeWhile_append_all (natChars n) rest (natChars_digits n) (boundary_not_digit hb)
  rw [hct, List.cons_append, parseVal_digit_start fuel c (t ++ rest) hc,
    ← List.cons_append, ← hct, htake, hdrop, digitsNat_natChars]

theorem parseVal_intChars (fuel : Nat) (i : Int) (rest : List Char)
    (hb : boundary rest = true) :
    parseVal (fuel + 1) (intChars i ++ rest) = some (Json.num i, rest) := by
  by_cases hi : i < 0
  · rw [show intChars i = '-' :: natChars i.natAbs from by simp [intChars, hi],
      List.cons_append, parseVal_minus_start]
    obtain ⟨htake, hdrop⟩ := takeWhile_append_all (natChars i.natAbs) rest
      (natChars_digits i.natAbs) (boundary_not_digit hb)
    obtain ⟨c, t, hct, _⟩ := natChars_cons i.natAbs
    rw [htake, hdrop, digitsNat_natChars, hct]
    simp only [List.isEmpty_cons, Bool.false_eq_true, if_false]
    have : -((i.natAbs : Int)) = i := by omega
    rw [this]
  · rw [show intChars i = natChars i.natAbs from by simp [intChars, hi],
      parseVal_natChars fuel i.natAbs rest hb]
    have : ((i.natAbs : Int)) = i := by omega
    rw [this]

/-! ### No newline occurs in a serialized value -/

mutual

theorem dumps_no_nl : ∀ v : Json, '\n' ∉ dumps v
  | Json.null => by decide
  | Json.bool b => by cases b <;> decide
  | Json.num i => intChars_no_nl i
  | Json.str s => strChars_no_nl s
  | Json.arr xs => by
    intro h
    have h' : '\n' ∈ '[' :: (dumpsItems xs ++ [']']) := h
    rcases List.mem_cons.mp h' with h'' | h''
    · exact absurd h'' (by decide)
    · rcases List.mem_append.mp h'' with h3 | h3
      · exact dumpsItems_no_nl xs h3
      · exact absurd (List.mem_singleton.mp h3) (by decide)
  | Json.obj kvs => by
    intro h
    have h' : '\n' ∈ '\x7b' :: (dumpsFields kvs ++ ['\x7d']) := h
    rcases List.mem_cons.mp h' with h'' | h''
    · exact absurd h'' (by decide)
    · rcases List.mem_append.mp h'' with h3 | h3
      · exact dumpsFields_no_nl kvs h3
      · exact absurd (List.mem_singleton.mp h3) (by decide)

theorem dumpsItems_no_nl : ∀ xs : List Json, '\n' ∉ dumpsItems xs
  | [] => by simp [dumpsItems]
  | x :: xs => by
    intro h
    have h' : '\n' ∈ dumps x ++ sepItems xs := h
    rcases List.mem_append.mp h' with h'' | h''
    · exact dumps_no_nl x h''
    · cases xs with
      | nil => simp [sepItems] at h''
      | cons y ys =>
        have h3 : '\n' ∈ ',' :: ' ' :: (dumps y ++ sepItems ys) := h''
        rcases List.mem_cons.mp h3 with h4 | h4
        · exact absurd h4 (by decide)
        · rcases List.mem_cons.mp h4 with h5 | h5
          · exact absurd h5 (by decide)
          · exact dumpsItems_no_nl (y :: ys) h5

theorem dumpsFields_no_nl : ∀ kvs : List (String × Json), '\n' ∉ dumpsFields kvs
  | [] => by simp [dumpsFields]
  | (k, v) :: kvs => by
    intro h
    have h' : '\n' ∈ strChars k ++ ':' :: ' ' :: (dumps v ++ sepFields kvs) := h
    rcases List.mem_append.mp h' with h'' | h''
    · exact strChars_no_nl k h''
    · rcases List.mem_cons.mp h'' with h3 | h3
      · exact absurd h3 (by decide)
      · rcases List.mem_cons.mp h3 with h4 | h4
        · exact absurd h4 (by decide)
        · rcases List.mem_append.mp h4 with h5 | h5
          · exact dumps_no_nl v h5
          · cases kvs with
            | nil => simp [sepFields] at h5
            | cons kv2 kvs2 =>
              have h6 : '\n' ∈ ',' :: ' '
                  :: (strChars kv2.1 ++ ':' :: ' ' :: (dumps kv2.2 ++ sepFields kvs2)) := by
                cases kv2
                exact h5
              rcases List.mem_cons.mp h6 with h7 | h7
              · exact absurd h7 (by decide)
              · rcases List.mem_cons.mp h7 with h8 | h8
                · exact absurd h8 (by decide)
                · have h9 : '\n' ∈ dumpsFields (kv2 :: kvs2) := by
                    cases kv2
                    exact h8
                  exact dumpsFields_no_nl (kv2 :: kvs2) h9

end

/-! ### Newline splitting inverts newline joining -/

theorem splitNL_no_nl : ∀ l : List Char, '\n' ∉ l → splitNL l = [l]
  | [], _ => rfl
  | c :: t, h => by
    have hc : ¬c = '\n' := by
      intro hc
      exact h (by simp [hc])
    have ht : '\n' ∉ t := by
      intro m
      exact h (List.mem_cons_of_mem _ m)
    have step : splitNL (c :: t)
        = if c = '\n' then [] :: splitNL t
          else
            match splitNL t with
            | [] => [[c]]
            | l :: ls => (c :: l) :: ls := rfl
    rw [step, if_neg hc, splitNL_no_nl t ht]

theorem splitNL_append_nl : ∀ (l rest : List Char), '\n' ∉ l →
    splitNL (l ++ '\n' :: rest) = l :: splitNL rest
  | [], rest, _ => rfl
  | c :: l, rest, h => by
    have hc : ¬c = '\n' := by
      intro hc
      exact h (by simp [hc])
    have hl : '\n' ∉ l := by
      intro m
      exact h (List.mem_cons_of_mem _ m)
    have step : splitNL (c :: (l ++ '\n' :: rest))
        = if c = '\n' then [] :: splitNL (l ++ '\n' :: rest)
          else
            match splitNL (l ++ '\n' :: rest) with
            | [] => [[c]]
            | x :: xs => (c :: x) :: xs := rfl
    rw [List.cons_append, step, if_neg hc, splitNL_append_nl l rest hl]

theorem splitNL_joinNL : ∀ ls : List (List Char), (∀ l ∈ ls, '\n' ∉ l) → ls ≠ [] →
    splitNL (joinNL ls) = ls
  | [], _, hne => absurd rfl hne
  | [l], h, _ => by
    show splitNL (l ++ if ([] : List (List Char)).isEmpty then [] else '\n' :: joinNL []) = [l]
    rw [show (if ([] : List (List Char)).isEmpty then ([] : List Char)
          else '\n' :: joinNL []) = [] from rfl,
      List.append_nil]
    exact splitNL_no_nl l (h l (by simp))
  | l :: l2 :: ls, h, _ => by
    show splitNL (l ++ if (l2 :: ls).isEmpty then []
        else '\n' :: joinNL (l2 :: ls)) = l :: l2 :: ls
    rw [show (if (l2 :: ls).isEmpty then ([] : List Char)
          else '\n' :: joinNL (l2 :: ls)) = '\n' :: joinNL (l2 :: ls) from rfl,
      splitNL_append_nl l _ (h l (by simp)),
      splitNL_joinNL (l2 :: ls) (fun x hx => h x (List.mem_cons_of_mem _ hx)) (by simp)]

theorem boundary_sepItems (xs : List Json) (rest : List Char) :
    boundary (sepItems xs ++ ']' :: rest) = true := by
  cases xs <;> rfl

theorem boundary_sepFields (kvs : List (String × Json)) (rest : List Char) :
    boundary (sepFields kvs ++ '\x7d' :: rest) = true := by
  cases kvs with
  | nil => rfl
  | cons kv kvs =>
    cases kv
    rfl

/-! ### The value parser inverts the encoder -/

mutual

theorem rt_val : ∀ (v : Json) (fuel : Nat) (rest : List Char),
    (dumps v).length < fuel → boundary rest = true →
    parseVal fuel (dumps v ++ rest) = some (v, rest)
  | Json.null, fuel, rest, hf, _ => by
    match fuel, hf with
    | fuel + 1, _ => exact parseVal_null_start fuel rest
  | Json.bool true, fuel, rest, hf, _ => by
    match fuel, hf with
    | fuel + 1, _ => exact parseVal_true_start fuel rest
  | Json.bool false, fuel, rest, hf, _ => by
    match fuel, hf with
    | fuel + 1, _ => exact parseVal_false_start fuel rest
  | Json.num i, fuel, rest, hf, hb => by
    match fuel, hf with
    | fuel + 1, _ => exact parseVal_intChars fuel i rest hb
  | Json.str s, fuel, rest, hf, _ => by
    match fuel, hf with
    | fuel + 1, _ =>
      have harg : dumps (Json.str s) ++ rest
          = '"' :: (s.data.flatMap escSeq ++ '"' :: rest) := by
        show ('"' :: (s.data.flatMap escSeq ++ ['"'])) ++ rest = _
        simp
      rw [harg, parseVal_quote_start, readStr_flatMap]
  | Json.arr [], fuel, rest, hf, _ => by
    match fuel, hf with
    | fuel + 1, _ =>
      show parseVal (fuel + 1) ('[' :: ']' :: rest) = some (Json.arr [], rest)
      rw [parseVal_lbracket_start]
      simp
  | Json.arr (x :: xs), fuel, rest, hf, _ => by
    match fuel, hf with
    | fuel + 1, hf =>
      have hlen : dumps (Json.arr (x :: xs))
          = '[' :: ((dumps x ++ sepItems xs) ++ [']']) := rfl
      rw [hlen] at hf
      simp only [List.length_cons, List.length_append, List.length_singleton] at hf
      have hx : (dumps x).length < fuel := by omega
      have hxs : (sepItems xs).length < fuel := by omega
      have harg : dumps (Json.arr (x :: xs)) ++ rest
          = '[' :: (dumps x ++ (sepItems xs ++ ']' :: rest)) := by
        rw [hlen]
        simp
      rw [harg, parseVal_lbracket_start]
      obtain ⟨c, t, hct, hc⟩ := dumps_head x
      rw [if_neg (by rw [hct]; simp [hc])]
      rw [rt_val x fuel (sepItems xs ++ ']' :: rest) hx (boundary_sepItems xs rest)]
      simp [rt_items xs fuel rest hxs]
  | Json.obj [], fuel, rest, hf, _ => by
    match fuel, hf with
    | fuel + 1, _ =>
      show parseVal (fuel + 1) ('\x7b' :: '\x7d' :: rest) = some (Json.obj [], rest)
      rw [parseVal_lbrace_start]
      simp
  | Json.obj ((k, v) :: kvs), fuel, rest, hf, _ => by
    match fuel, hf with
    | fuel + 1, hf =>
      have hlen : dumps (Json.obj ((k, v) :: kvs))
          = '\x7b' :: ((strChars k ++ ':' :: ' ' :: (dumps v ++ sepFields kvs)) ++ ['\x7d']) := rfl
      rw [hlen] at hf
      simp only [List.length_cons, List.length_append, List.length_singleton] at hf
      have hv : (dumps v).length < fuel := by omega
      have hkvs : (sepFields kvs).length < fuel := by omega
      have harg : dumps (Json.obj ((k, v) :: kvs)) ++ rest
          = '\x7b' :: ('"' :: (k.data.flatMap escSeq
              ++ '"' :: (':' :: ' ' :: (dumps v ++ (sepFields kvs ++ '\x7d' :: rest))))) := by
        rw [hlen]
        simp [strChars]
      rw [harg, parseVal_lbrace_start]
      rw [if_neg (by simp)]
      simp only [readStr_flatMap]
      simp [rt_val v fuel (sepFields kvs ++ '\x7d' :: rest) hv (boundary_sepFields kvs rest),
        rt_fields kvs fuel rest hkvs]
  termination_by v _ _ _ _ => sizeOf v

theorem rt_items : ∀ (xs : List Json) (fuel : Nat) (rest : List Char),
    (sepItems xs).length < fuel →
    parseItems fuel (sepItems xs ++ ']' :: rest) = some (xs, rest)
  | [], fuel, rest, hf => by
    match fuel, hf with
    | fuel + 1, _ => exact parseItems_rbracket fuel rest
  | x :: xs, fuel, rest, hf => by
    match fuel, hf with
    | fuel + 1, hf =>
      have hlen : sepItems (x :: xs) = ',' :: ' ' :: (dumps x ++ sepItems xs) := rfl
      rw [hlen] at hf
      simp only [List.length_cons, List.length_append] at hf
      have hx : (dumps x).length < fuel := by omega
      have hxs : (sepItems xs).length < fuel := by omega
      have harg : sepItems (x :: xs) ++ ']' :: rest
          = ',' :: ' ' :: (dumps x ++ (sepItems xs ++ ']' :: rest)) := by
        rw [hlen]
        simp
      rw [harg, parseItems_comma]
      rw [rt_val x fuel (sepItems xs ++ ']' :: rest) hx (boundary_sepItems xs rest)]
      simp [rt_items xs fuel rest hxs]
  termination_by xs _ _ _ => sizeOf xs

theorem rt_fields : ∀ (kvs : List (String × Json)) (fuel : Nat) (rest : List Char),
    (sepFields kvs).length < fuel →
    parseFields fuel (sepFields kvs ++ '\x7d' :: rest) = some (kvs, rest)
  | [], fuel, rest, hf => by
    match fuel, hf with
    | fuel + 1, _ => exact parseFields_rbrace fuel rest
  | (k, v) :: kvs, fuel, rest, hf => by
    match fuel, hf with
    | fuel + 1, hf =>
      have hlen : sepFields ((k, v) :: kvs)
          = ',' :: ' ' :: (strChars k ++ ':' :: ' ' :: (dumps v ++ sepFields kvs)) := rfl
      rw [hlen] at hf
      simp only [List.length_cons, List.length_append] at hf
      have hv : (dumps v).length < fuel := by omega
      have hkvs : (sepFields kvs).length < fuel := by omega
      have harg : sepFields ((k, v) :: kvs) ++ '\x7d' :: rest
          = ',' :: ' ' :: '"' :: (k.data.flatMap escSeq
              ++ '"' :: (':' :: ' ' :: (dumps v ++ (sepFields kvs ++ '\x7d' :: rest)))) := by
        rw [hlen]
        simp [strChars]
      rw [harg, parseFields_comma]
      simp only [readStr_flatMap]
      simp [rt_val v fuel (sepFields kvs ++ '\x7d' :: rest) hv (boundary_sepFields kvs rest),
        rt_fields kvs fuel rest hkvs]
  termination_by kvs _ _ _ => sizeOf kvs

end

theorem dumps_ne_nil (v : Json) : dumps v ≠ [] := by
  obtain ⟨c, t, hct, _⟩ := dumps_head v
  simp [hct]

/-- Parsing one serialized record as a full line recovers the record. -/
theorem parseLine_dumps (v : Json) : parseLine (dumps v) = some v := by
  unfold parseLine
  have h := rt_val v ((dumps v).length + 1) [] (by omega) rfl
  rw [List.append_nil] at h
  rw [h]

theorem mapM_parseLine (records : List Json) :
    (records.map dumps).mapM parseLine = some records := by
  induction records with
  | nil => rfl
  | cons r rs ih =>
    rw [List.map_cons, List.mapM_cons, parseLine_dumps, ih]
    rfl

/-- C5: converting a parsed JSON array of records to the in-memory
NDJSON buffer and parsing the buffer back line by line yields exactly
the original records, field by field and in order; moreover for a
non-empty batch the buffer's lines are precisely the individual record
serializations — one self-contained record per line, never an enclosing
array. -/
theorem ndjson_roundtrip :
    (∀ records : List Json,
      parseNDJSON (_json_array_to_ndjson records) = some records) ∧
    (∀ records : List Json, records ≠ [] →
      splitNL (_json_array_to_ndjson records) = records.map dumps) := by
  have hsplit : ∀ records : List Json, records ≠ [] →
      splitNL (_json_array_to_ndjson records) = records.map dumps := by
    intro records hne
    unfold _json_array_to_ndjson
    refine splitNL_joinNL (records.map dumps) ?_ (by simpa using hne)
    intro l hl
    obtain ⟨v, _, rfl⟩ := List.mem_map.mp hl
    exact dumps_no_nl v
  constructor
  · intro records
    cases records with
    | nil => rfl
    | cons r rs =>
      unfold parseNDJSON
      have hbuf : _json_array_to_ndjson (r :: rs)
          = dumps r ++ (if (rs.map dumps).isEmpty then []
              else '\n' :: joinNL (rs.map dumps)) := rfl
      obtain ⟨c, t, hct, _⟩ := dumps_head r
      have hne : (_json_array_to_ndjson (r :: rs)).isEmpty = false := by
        rw [hbuf, hct, List.cons_append]
        rfl
      rw [if_neg (by simp [hne])]
      rw [hsplit (r :: rs) (by simp)]
      exact mapM_parseLine (r :: rs)
  · exact hsplit

/-- Witness for C5 at a two-record batch mixing object, array, string
and number payloads. -/
theorem ndjson_roundtrip_witness :
    parseNDJSON (_json_array_to_ndjson
        [Json.obj [("k", Json.num 0)], Json.arr [Json.str "a"]])
      = some [Json.obj [("k", Json.num 0)], Json.arr [Json.str "a"]] ∧
    splitNL (_json_array_to_ndjson
        [Json.obj [("k", Json.num 0)], Json.arr [Json.str "a"]])
      = [Json.obj [("k", Json.num 0)], Json.arr [Json.str "a"]].map dumps :=
  ⟨ndjson_roundtrip.1 _, ndjson_roundtrip.2 _ (by simp)⟩

end IDFM
